import Mathlib

/-!
Shallow embedding of the TacticalBoard interaction engine (src/App.tsx):
the viewport transform, the board state store, the pointer-event handlers
and the snapshot history.  Numbers are modelled as rationals; the random
inputs of the source (generated ids, center jitter) and the values read
from the scene graph (pointer position, absolute drag position, drop
coordinates) are explicit parameters of the corresponding functions.
-/

namespace TacticalBoard

/-- ItemType from src/types (HOME, AWAY, BALL). -/
inductive ItemType
  | HOME_PLAYER
  | AWAY_PLAYER
  | BALL
deriving DecidableEq

/-- ToolMode from src/types (SELECT, PEN, ARROW). -/
inductive ToolMode
  | SELECT
  | PEN
  | ARROW
deriving DecidableEq

/-- BoardItem from src/types; `number` is the optional jersey number. -/
structure BoardItem where
  id : Nat
  type : ItemType
  x : ℚ
  y : ℚ
  rotation : ℚ
  number : Option Nat
deriving DecidableEq

/-- Drawing from src/types: a stroke with its tool, flat point list
(x0, y0, x1, y1, ...), color and stroke width. -/
structure Drawing where
  id : Nat
  tool : ToolMode
  points : List ℚ
  color : String
  strokeWidth : ℚ
deriving DecidableEq

/-- One history entry: the two collections captured at a commit point. -/
structure Snapshot where
  items : List BoardItem
  drawings : List Drawing
deriving DecidableEq

/-- The App component's state: container size, live collections, selection,
tool, color, the two jersey counters, trash-armed flag, the history log with
its cursor, and the drawing-session refs isDrawing / currentLineId. -/
structure AppState where
  containerWidth : ℚ
  containerHeight : ℚ
  items : List BoardItem
  drawings : List Drawing
  selectedId : Option Nat
  toolMode : ToolMode
  drawingColor : String
  homeCount : Nat
  awayCount : Nat
  isTrashActive : Bool
  history : List Snapshot
  historyStep : Nat
  isDrawing : Bool
  currentLineId : Option Nat
deriving DecidableEq

def VIRTUAL_WIDTH : ℚ := 1050

def VIRTUAL_HEIGHT : ℚ := 680

def TRASH_SIZE : ℚ := 60

/-- The empty board snapshot seeded as history entry 0. -/
def emptySnapshot : Snapshot := ⟨[], []⟩

/-- The initial component state (container size is supplied by the resize
source; all other fields are the useState initial values of App.tsx). -/
def initialState (w h : ℚ) : AppState :=
  { containerWidth := w
    containerHeight := h
    items := []
    drawings := []
    selectedId := none
    toolMode := ToolMode.SELECT
    drawingColor := "#fbbf24"
    homeCount := 1
    awayCount := 1
    isTrashActive := false
    history := [emptySnapshot]
    historyStep := 0
    isDrawing := false
    currentLineId := none }

/-- scale = min(containerW/W, containerH/H) * 0.95. -/
def scale (s : AppState) : ℚ :=
  min (s.containerWidth / VIRTUAL_WIDTH) (s.containerHeight / VIRTUAL_HEIGHT) * (95 / 100)

/-- safeScale = scale || 0.1 (the falsy fallback when the computed scale
is zero). -/
def safeScale (s : AppState) : ℚ :=
  if scale s = 0 then 1 / 10 else scale s

/-- boardX = max(0, (containerW - W * safeScale) / 2). -/
def boardX (s : AppState) : ℚ :=
  max 0 ((s.containerWidth - VIRTUAL_WIDTH * safeScale s) / 2)

/-- boardY = max(0, (containerH - H * safeScale) / 2). -/
def boardY (s : AppState) : ℚ :=
  max 0 ((s.containerHeight - VIRTUAL_HEIGHT * safeScale s) / 2)

/-- getVirtualPoint: screen pointer position to logical coordinates;
`none` when the stage has no pointer position. -/
def getVirtualPoint (s : AppState) (pointer : Option (ℚ × ℚ)) : Option (ℚ × ℚ) :=
  match pointer with
  | none => none
  | some p => some ((p.1 - boardX s) / safeScale s, (p.2 - boardY s) / safeScale s)

/-- The screen position of a logical point under the world Group's
transform (x = boardX, y = boardY, scaleX = scaleY = safeScale). -/
def toScreen (s : AppState) (p : ℚ × ℚ) : ℚ × ℚ :=
  (boardX s + p.1 * safeScale s, boardY s + p.2 * safeScale s)

/-- addToHistory: truncate to [0..historyStep], append the new snapshot,
return the new log and the new step (its last index). -/
def addToHistory (history : List Snapshot) (historyStep : Nat)
    (newItems : List BoardItem) (newDrawings : List Drawing) : List Snapshot × Nat :=
  let newHistory := history.take (historyStep + 1) ++ [⟨newItems, newDrawings⟩]
  (newHistory, newHistory.length - 1)

/-- handleUndo: no-op at step 0, otherwise step back and install that entry. -/
def handleUndo (s : AppState) : AppState :=
  if s.historyStep = 0 then s
  else
    let prevStep := s.historyStep - 1
    let content := s.history.getD prevStep emptySnapshot
    { s with items := content.items, drawings := content.drawings, historyStep := prevStep }

/-- handleRedo: no-op at the last index, otherwise step forward and install
that entry (the guard compares against length - 1 as the source does). -/
def handleRedo (s : AppState) : AppState :=
  if (s.historyStep : ℤ) = (s.history.length : ℤ) - 1 then s
  else
    let nextStep := s.historyStep + 1
    let content := s.history.getD nextStep emptySnapshot
    { s with items := content.items, drawings := content.drawings, historyStep := nextStep }

/-- The counter update `prev < 99 ? prev + 1 : 1` used for both teams. -/
def nextCount (c : Nat) : Nat := if c < 99 then c + 1 else 1

/-- addItem: assign the team counter as jersey number (players only),
advance that counter, append the new item near the canvas center with
jitter (jx, jy), commit, and switch the tool to SELECT. -/
def addItem (s : AppState) (type : ItemType) (newId : Nat) (jx jy : ℚ) : AppState :=
  let number : Option Nat :=
    match type with
    | ItemType.HOME_PLAYER => some s.homeCount
    | ItemType.AWAY_PLAYER => some s.awayCount
    | ItemType.BALL => none
  let homeCount := if type = ItemType.HOME_PLAYER then nextCount s.homeCount else s.homeCount
  let awayCount := if type = ItemType.AWAY_PLAYER then nextCount s.awayCount else s.awayCount
  let newItem : BoardItem :=
    { id := newId
      type := type
      x := VIRTUAL_WIDTH / 2 + jx
      y := VIRTUAL_HEIGHT / 2 + jy
      rotation := 0
      number := number }
  let newItems := s.items ++ [newItem]
  let h := addToHistory s.history s.historyStep newItems s.drawings
  { s with
    items := newItems, homeCount := homeCount, awayCount := awayCount,
    history := h.1, historyStep := h.2, toolMode := ToolMode.SELECT }

/-- The trash hit test of handleDragEnd / handleDragMove: the absolute
position against the 60x60 square at (containerW-80, containerH-80),
inflated by 30 on all sides, with strict inequalities as in the source. -/
def inTrash (s : AppState) (absPos : ℚ × ℚ) : Bool :=
  let trashX := s.containerWidth - TRASH_SIZE - 20
  let trashY := s.containerHeight - TRASH_SIZE - 20
  decide (absPos.1 > trashX - 30) && decide (absPos.1 < trashX + TRASH_SIZE + 30) &&
    decide (absPos.2 > trashY - 30) && decide (absPos.2 < trashY + TRASH_SIZE + 30)

/-- handleDragEnd: if the absolute position is in the trash zone, remove the
item (deselecting it if selected) and return; otherwise write the drop
position and rotation back and commit. -/
def handleDragEnd (s : AppState) (id : Nat) (absPos : ℚ × ℚ)
    (dropX dropY dropRot : ℚ) : AppState :=
  if inTrash s absPos then
    { s with
      items := s.items.filter (fun i => i.id != id),
      selectedId := if s.selectedId = some id then none else s.selectedId,
      isTrashActive := false }
  else
    let newItems := s.items.map (fun item =>
      if item.id = id then { item with x := dropX, y := dropY, rotation := dropRot }
      else item)
    let h := addToHistory s.history s.historyStep newItems s.drawings
    { s with items := newItems, history := h.1, historyStep := h.2, isTrashActive := false }

/-- handleDragMove: arm or clear the trash flag from the trash hit test. -/
def handleDragMove (s : AppState) (absPos : ℚ × ℚ) : AppState :=
  { s with isTrashActive := inTrash s absPos }

/-- handleStageMouseDown: clear the selection on a background hit; return
if the tool is SELECT; otherwise mark the session active, convert the
pointer (abort if unavailable), and start the stroke with that one point. -/
def handleStageMouseDown (s : AppState) (isBackground : Bool)
    (pointer : Option (ℚ × ℚ)) (newId : Nat) : AppState :=
  let s := if isBackground then { s with selectedId := none } else s
  if s.toolMode = ToolMode.SELECT then s
  else
    let s := { s with isDrawing := true }
    match getVirtualPoint s pointer with
    | none => s
    | some pos =>
      let newDrawing : Drawing :=
        { id := newId
          tool := s.toolMode
          points := [pos.1, pos.2]
          color := s.drawingColor
          strokeWidth := 4 }
      { s with currentLineId := some newId, drawings := s.drawings ++ [newDrawing] }

/-- The per-stroke update of handleStageMouseMove: for the current stroke,
an ARROW keeps its first point and replaces the end; a PEN appends. -/
def updateLayer (currentLineId : Option Nat) (point : ℚ × ℚ) (layer : Drawing) : Drawing :=
  if currentLineId = some layer.id then
    if layer.tool = ToolMode.ARROW then
      { layer with points := [layer.points.getD 0 0, layer.points.getD 1 0, point.1, point.2] }
    else
      { layer with points := layer.points ++ [point.1, point.2] }
  else layer

/-- handleStageMouseMove: ignored unless a session is active with a current
stroke; convert the pointer (abort silently if unavailable) and update the
current stroke. -/
def handleStageMouseMove (s : AppState) (pointer : Option (ℚ × ℚ)) : AppState :=
  if ¬ s.isDrawing ∨ s.currentLineId = none then s
  else
    match getVirtualPoint s pointer with
    | none => s
    | some point =>
      { s with drawings := s.drawings.map (updateLayer s.currentLineId point) }

/-- handleStageMouseUp: if a session was active, end it and commit the
current collections. -/
def handleStageMouseUp (s : AppState) : AppState :=
  if s.isDrawing then
    let h := addToHistory s.history s.historyStep s.items s.drawings
    { s with isDrawing := false, currentLineId := none, history := h.1, historyStep := h.2 }
  else s

/-- The Reset Board button: empty both collections, counters back to 1. -/
def resetBoard (s : AppState) : AppState :=
  { s with items := [], drawings := [], homeCount := 1, awayCount := 1 }

/-- The Clear Drawings button. -/
def clearDrawings (s : AppState) : AppState :=
  { s with drawings := [] }

/-! ## Viewport transform facts -/

lemma scale_pos (s : AppState) (hw : 0 < s.containerWidth) (hh : 0 < s.containerHeight) :
    0 < scale s := by
  have h1 : 0 < s.containerWidth / VIRTUAL_WIDTH := by
    apply div_pos hw; norm_num [VIRTUAL_WIDTH]
  have h2 : 0 < s.containerHeight / VIRTUAL_HEIGHT := by
    apply div_pos hh; norm_num [VIRTUAL_HEIGHT]
  have hmin : 0 < min (s.containerWidth / VIRTUAL_WIDTH) (s.containerHeight / VIRTUAL_HEIGHT) :=
    lt_min h1 h2
  have : (0:ℚ) < 95 / 100 := by norm_num
  exact mul_pos hmin this

lemma safeScale_pos (s : AppState) (hw : 0 < s.containerWidth)
    (hh : 0 < s.containerHeight) : 0 < safeScale s := by
  rw [safeScale, if_neg (ne_of_gt (scale_pos s hw hh))]
  exact scale_pos s hw hh

/-- C6: for a container with positive area and any logical point inside the
canvas, mapping to screen coordinates through the world Group transform and
back through getVirtualPoint recovers the point exactly (over ℚ). -/
theorem transform_roundtrip (s : AppState) (p : ℚ × ℚ)
    (hw : 0 < s.containerWidth) (hh : 0 < s.containerHeight)
    (hx0 : 0 ≤ p.1) (hx1 : p.1 ≤ VIRTUAL_WIDTH)
    (hy0 : 0 ≤ p.2) (hy1 : p.2 ≤ VIRTUAL_HEIGHT) :
    getVirtualPoint s (some (toScreen s p)) = some p := by
  have hk : safeScale s ≠ 0 := ne_of_gt (safeScale_pos s hw hh)
  have e1 : boardX s + p.1 * safeScale s - boardX s = p.1 * safeScale s := by ring
  have e2 : boardY s + p.2 * safeScale s - boardY s = p.2 * safeScale s := by ring
  simp only [getVirtualPoint, toScreen, e1, e2, mul_div_cancel_right₀ _ hk]

/-- A concrete viewport used to instantiate the round-trip theorem. -/
def viewportState : AppState := initialState 800 600

theorem transform_roundtrip_witness :
    getVirtualPoint viewportState (some (toScreen viewportState (100, 200))) =
      some (100, 200) :=
  transform_roundtrip viewportState (100, 200)
    (by norm_num [viewportState, initialState])
    (by norm_num [viewportState, initialState])
    (by norm_num) (by norm_num [VIRTUAL_WIDTH])
    (by norm_num) (by norm_num [VIRTUAL_HEIGHT])

/-- A container of zero area: the safeScale fallback makes the scaled
canvas larger than the container. -/
def degenerateState : AppState := initialState 0 0

/-- C7 counterexample: at container size 0 x 0 the fallback scale is 1/10,
so the scaled canvas width 105 exceeds the container width 0; the claimed
fit-contain bound fails for this container size. -/
theorem fit_contain_counterexample :
    ¬ (VIRTUAL_WIDTH * safeScale degenerateState ≤ degenerateState.containerWidth) := by
  have hz : scale degenerateState = 0 := by
    norm_num [scale, degenerateState, initialState, VIRTUAL_WIDTH, VIRTUAL_HEIGHT]
  rw [safeScale, if_pos hz]
  norm_num [degenerateState, initialState, VIRTUAL_WIDTH]

/-- C7 (amended): for containers with both dimensions positive the scaled
canvas fits inside the container (the 0.95 padding included), and the
centering offsets are nonnegative for every container size. -/
theorem fit_contain (s : AppState) :
    (0 < s.containerWidth → 0 < s.containerHeight →
      VIRTUAL_WIDTH * safeScale s ≤ s.containerWidth ∧
      VIRTUAL_HEIGHT * safeScale s ≤ s.containerHeight) ∧
    0 ≤ boardX s ∧ 0 ≤ boardY s := by
  refine ⟨?_, le_max_left _ _, le_max_left _ _⟩
  intro hw hh
  have hs : safeScale s = scale s := if_neg (ne_of_gt (scale_pos s hw hh))
  rw [hs, scale, VIRTUAL_WIDTH, VIRTUAL_HEIGHT]
  constructor
  · have hm : min (s.containerWidth / 1050) (s.containerHeight / 680) ≤
        s.containerWidth / 1050 :=
      min_le_left (s.containerWidth / (1050:ℚ)) (s.containerHeight / 680)
    have step : (1050:ℚ) * (min (s.containerWidth / 1050) (s.containerHeight / 680) *
        (95 / 100)) ≤ 1050 * ((s.containerWidth / 1050) * (95 / 100)) := by
      apply mul_le_mul_of_nonneg_left _ (by norm_num)
      exact mul_le_mul_of_nonneg_right hm (by norm_num)
    have eq1 : (1050:ℚ) * ((s.containerWidth / 1050) * (95 / 100)) =
        s.containerWidth * (95 / 100) := by ring
    have le1 : s.containerWidth * (95 / 100) ≤ s.containerWidth := by nlinarith
    calc (1050:ℚ) * (min (s.containerWidth / 1050) (s.containerHeight / 680) * (95 / 100))
        ≤ 1050 * ((s.containerWidth / 1050) * (95 / 100)) := step
      _ = s.containerWidth * (95 / 100) := eq1
      _ ≤ s.containerWidth := le1
  · have hm : min (s.containerWidth / 1050) (s.containerHeight / 680) ≤
        s.containerHeight / 680 :=
      min_le_right (s.containerWidth / (1050:ℚ)) (s.containerHeight / 680)
    have step : (680:ℚ) * (min (s.containerWidth / 1050) (s.containerHeight / 680) *
        (95 / 100)) ≤ 680 * ((s.containerHeight / 680) * (95 / 100)) := by
      apply mul_le_mul_of_nonneg_left _ (by norm_num)
      exact mul_le_mul_of_nonneg_right hm (by norm_num)
    have eq1 : (680:ℚ) * ((s.containerHeight / 680) * (95 / 100)) =
        s.containerHeight * (95 / 100) := by ring
    have le1 : s.containerHeight * (95 / 100) ≤ s.containerHeight := by nlinarith
    calc (680:ℚ) * (min (s.containerWidth / 1050) (s.containerHeight / 680) * (95 / 100))
        ≤ 680 * ((s.containerHeight / 680) * (95 / 100)) := step
      _ = s.containerHeight * (95 / 100) := eq1
      _ ≤ s.containerHeight := le1

/-- C9: when either container dimension is zero the scale falls back to the
constant 1/10; the scale is never zero for any container, and for every
available pointer position the screen-to-logical conversion yields a value
(no failure and, over ℚ, no division by zero). -/
theorem degenerate_viewport_safe (s : AppState) :
    (0 ≤ s.containerWidth → 0 ≤ s.containerHeight →
      s.containerWidth = 0 ∨ s.containerHeight = 0 → safeScale s = 1 / 10) ∧
    safeScale s ≠ 0 ∧
    ∀ p : ℚ × ℚ, getVirtualPoint s (some p) =
      some ((p.1 - boardX s) / safeScale s, (p.2 - boardY s) / safeScale s) := by
  refine ⟨?_, ?_, fun p => rfl⟩
  · intro hw hh h0
    have hz : scale s = 0 := by
      rcases h0 with h | h
      · have hr : (0:ℚ) ≤ s.containerHeight / VIRTUAL_HEIGHT := by
          apply div_nonneg hh; norm_num [VIRTUAL_HEIGHT]
        simp [scale, h, min_eq_left hr]
      · have hr : (0:ℚ) ≤ s.containerWidth / VIRTUAL_WIDTH := by
          apply div_nonneg hw; norm_num [VIRTUAL_WIDTH]
        simp [scale, h, min_eq_right hr]
    rw [safeScale, if_pos hz]
  · by_cases h : scale s = 0
    · rw [safeScale, if_pos h]; norm_num
    · rw [safeScale, if_neg h]; exact h

/-- C10: every addItem call, for any item kind and from any tool mode, ends
with the tool mode set to SELECT. -/
theorem addItem_sets_select (s : AppState) (type : ItemType) (newId : Nat)
    (jx jy : ℚ) : (addItem s type newId jx jy).toolMode = ToolMode.SELECT := rfl

/-! ## Drag end and the trash zone -/

/-- An item parked on the board, used for the concrete drag scenarios. -/
def trashItem : BoardItem :=
  { id := 1, type := ItemType.HOME_PLAYER, x := 500, y := 300, rotation := 0,
    number := some 1 }

/-- A state in an 800 x 600 container holding exactly trashItem, selected,
with that item already committed to history at the cursor. -/
def trashDragState : AppState :=
  { initialState 800 600 with
    items := [trashItem],
    selectedId := some 1,
    history := [emptySnapshot, ⟨[trashItem], []⟩],
    historyStep := 1 }

/-- C1 counterexample: dragging the item to absolute position (750, 550) -
inside the inflated trash rectangle of the 800 x 600 container - removes and
deselects it, but NO history commit follows: the history log and step are
unchanged and the entry at the cursor still contains the item, so the claim
that a commit follows with the item absent from the subsequent entry fails. -/
theorem trash_deletion_no_commit :
    inTrash trashDragState (750, 550) = true ∧
    (handleDragEnd trashDragState 1 (750, 550) 0 0 0).items = [] ∧
    (handleDragEnd trashDragState 1 (750, 550) 0 0 0).selectedId = none ∧
    (handleDragEnd trashDragState 1 (750, 550) 0 0 0).history = trashDragState.history ∧
    (handleDragEnd trashDragState 1 (750, 550) 0 0 0).historyStep = 1 ∧
    ((handleDragEnd trashDragState 1 (750, 550) 0 0 0).history.getD 1 emptySnapshot).items
      = [trashItem] := by
  have hIT : inTrash trashDragState (750, 550) = true := by
    simp only [inTrash, trashDragState, initialState, TRASH_SIZE, Bool.and_eq_true,
      decide_eq_true_eq]
    norm_num
  have hD : handleDragEnd trashDragState 1 (750, 550) 0 0 0 =
      { trashDragState with
        items := trashDragState.items.filter (fun i => i.id != 1),
        selectedId := if trashDragState.selectedId = some 1 then none
          else trashDragState.selectedId,
        isTrashActive := false } := by
    unfold handleDragEnd
    rw [if_pos hIT]
  refine ⟨hIT, ?_, ?_, ?_, ?_, ?_⟩ <;> rw [hD] <;> rfl

/-- C1 (amended): a drag ending inside the inflated trash rectangle removes
the item and deselects it if it was selected but performs NO history commit
(the log and step are unchanged); a drag ending outside retains the item
with position and rotation updated to the drop values, and a history commit
follows. -/
theorem drag_end_spec (s : AppState) (id : Nat) (absPos : ℚ × ℚ)
    (dropX dropY dropRot : ℚ) :
    (inTrash s absPos = true →
      (handleDragEnd s id absPos dropX dropY dropRot).items =
        s.items.filter (fun i => i.id != id) ∧
      (handleDragEnd s id absPos dropX dropY dropRot).selectedId =
        (if s.selectedId = some id then none else s.selectedId) ∧
      (handleDragEnd s id absPos dropX dropY dropRot).history = s.history ∧
      (handleDragEnd s id absPos dropX dropY dropRot).historyStep = s.historyStep) ∧
    (inTrash s absPos = false →
      (handleDragEnd s id absPos dropX dropY dropRot).items =
        s.items.map (fun item =>
          if item.id = id then { item with x := dropX, y := dropY, rotation := dropRot }
          else item) ∧
      (handleDragEnd s id absPos dropX dropY dropRot).history =
        s.history.take (s.historyStep + 1) ++
          [⟨s.items.map (fun item =>
              if item.id = id then { item with x := dropX, y := dropY, rotation := dropRot }
              else item), s.drawings⟩] ∧
      (handleDragEnd s id absPos dropX dropY dropRot).historyStep =
        (handleDragEnd s id absPos dropX dropY dropRot).history.length - 1) := by
  constructor
  · intro h
    simp [handleDragEnd, h]
  · intro h
    simp [handleDragEnd, h, addToHistory]

/-! ## Pointer-down without a pointer position -/

/-- The initial 800 x 600 state with the Pen tool active. -/
def penDownState : AppState :=
  { initialState 800 600 with toolMode := ToolMode.PEN }

/-- C5 counterexample: a pointer-down with the Pen tool and no pointer
position creates no stroke, yet it DOES mark the drawing session active,
and the subsequent pointer-up then appends a history entry - refuting the
claim that the session does not become active and that pointer-up appends
no entry. -/
theorem no_pointer_down_counterexample :
    (handleStageMouseDown penDownState false none 7).drawings = [] ∧
    (handleStageMouseDown penDownState false none 7).isDrawing = true ∧
    (handleStageMouseUp (handleStageMouseDown penDownState false none 7)).history.length =
      penDownState.history.length + 1 := by
  decide

/-- C5 (amended): a pointer-down with a drawing tool and no pointer position
creates no stroke and leaves items, drawings, history and the current stroke
id unchanged, but it sets the session flag active, so a subsequent
pointer-up commits one (duplicate) history entry. -/
theorem no_pointer_down_spec (s : AppState) (bg : Bool) (newId : Nat)
    (h : s.toolMode ≠ ToolMode.SELECT) :
    (handleStageMouseDown s bg none newId).drawings = s.drawings ∧
    (handleStageMouseDown s bg none newId).items = s.items ∧
    (handleStageMouseDown s bg none newId).history = s.history ∧
    (handleStageMouseDown s bg none newId).historyStep = s.historyStep ∧
    (handleStageMouseDown s bg none newId).currentLineId = s.currentLineId ∧
    (handleStageMouseDown s bg none newId).isDrawing = true ∧
    (handleStageMouseUp (handleStageMouseDown s bg none newId)).history =
      s.history.take (s.historyStep + 1) ++ [⟨s.items, s.drawings⟩] := by
  cases bg <;>
    simp [handleStageMouseDown, handleStageMouseUp, getVirtualPoint, h, addToHistory]

theorem no_pointer_down_witness :
    (handleStageMouseDown penDownState true none 3).drawings = penDownState.drawings ∧
    (handleStageMouseDown penDownState true none 3).items = penDownState.items ∧
    (handleStageMouseDown penDownState true none 3).history = penDownState.history ∧
    (handleStageMouseDown penDownState true none 3).historyStep = penDownState.historyStep ∧
    (handleStageMouseDown penDownState true none 3).currentLineId =
      penDownState.currentLineId ∧
    (handleStageMouseDown penDownState true none 3).isDrawing = true ∧
    (handleStageMouseUp (handleStageMouseDown penDownState true none 3)).history =
      penDownState.history.take (penDownState.historyStep + 1) ++
        [⟨penDownState.items, penDownState.drawings⟩] :=
  no_pointer_down_spec penDownState true 3 (by decide)

/-! ## Jersey numbers -/

/-- The numbers a per-team counter yields over n successive assignments. -/
def counterSeq : Nat → Nat → List Nat
  | _, 0 => []
  | c, n + 1 => c :: counterSeq (nextCount c) n

/-- n successive addItem(HOME_PLAYER) calls (id and jitter fixed at 0: they
do not influence numbering). -/
def addHomeN : AppState → Nat → AppState
  | s, 0 => s
  | s, n + 1 => addHomeN (addItem s ItemType.HOME_PLAYER 0 0 0) n

lemma addHomeN_numbers (n : Nat) : ∀ s : AppState,
    (addHomeN s n).items.map (fun i => i.number) =
      s.items.map (fun i => i.number) ++ (counterSeq s.homeCount n).map some := by
  induction n with
  | zero => intro s; simp [addHomeN, counterSeq]
  | succ n ih =>
    intro s
    have step : addHomeN s (n + 1) = addHomeN (addItem s ItemType.HOME_PLAYER 0 0 0) n := rfl
    rw [step, ih]
    simp [addItem, counterSeq, List.append_assoc]

/-- C4: the two jersey counters cycle independently: 100 successive home
additions from the initial state yield numbers 1..99 then 1; a drag-to-trash
(or any drag end) never changes either counter; resetBoard sets both back
to 1; and undo/redo leave both counters untouched. -/
theorem jersey_number_cycling :
    (∀ w h : ℚ, (addHomeN (initialState w h) 100).items.map (fun i => i.number) =
      (List.range 99).map (fun k => some (k + 1)) ++ [some 1]) ∧
    (∀ (s : AppState) (id : Nat) (absPos : ℚ × ℚ) (x y r : ℚ),
      (handleDragEnd s id absPos x y r).homeCount = s.homeCount ∧
      (handleDragEnd s id absPos x y r).awayCount = s.awayCount) ∧
    (∀ s : AppState, (resetBoard s).homeCount = 1 ∧ (resetBoard s).awayCount = 1) ∧
    (∀ s : AppState,
      (handleUndo s).homeCount = s.homeCount ∧ (handleUndo s).awayCount = s.awayCount ∧
      (handleRedo s).homeCount = s.homeCount ∧ (handleRedo s).awayCount = s.awayCount) := by
  refine ⟨?_, ?_, ?_, ?_⟩
  · intro w h
    rw [addHomeN_numbers]
    have hc : counterSeq 1 100 = (List.range 99).map (fun k => k + 1) ++ [1] := by decide
    have h0 : (initialState w h).homeCount = 1 := rfl
    have h1 : (initialState w h).items = [] := rfl
    rw [h0, h1, hc]
    simp [List.map_map, Function.comp]
  · intro s id absPos x y r
    cases hIT : inTrash s absPos <;> simp [handleDragEnd, hIT]
  · intro s
    exact ⟨rfl, rfl⟩
  · intro s
    refine ⟨?_, ?_, ?_, ?_⟩ <;> · simp only [handleUndo, handleRedo]; split <;> rfl

/-! ## History manager -/

/-- A commit as the app performs it at every commit point (after addItem,
after a drag-end move, after a stroke ends): the live collections are set
to the committed snapshot and addToHistory records it. -/
def commitState (s : AppState) (snap : Snapshot) : AppState :=
  let h := addToHistory s.history s.historyStep snap.items snap.drawings
  { s with
    items := snap.items, drawings := snap.drawings,
    history := h.1, historyStep := h.2 }

/-- A sequence of commits applied in order. -/
def commitAll (s : AppState) (snaps : List Snapshot) : AppState :=
  snaps.foldl commitState s

/-- n successive undo clicks. -/
def undoN : Nat → AppState → AppState
  | 0, s => s
  | n + 1, s => undoN n (handleUndo s)

/-- n successive redo clicks. -/
def redoN : Nat → AppState → AppState
  | 0, s => s
  | n + 1, s => redoN n (handleRedo s)

/-- Install the history entry at index n as the live collections and move
the cursor there: the common shape of an effective undo or redo. -/
def loadStep (s : AppState) (n : Nat) : AppState :=
  let content := s.history.getD n emptySnapshot
  { s with items := content.items, drawings := content.drawings, historyStep := n }

lemma handleUndo_eq_loadStep (s : AppState) (h : s.historyStep ≠ 0) :
    handleUndo s = loadStep s (s.historyStep - 1) := by
  rw [handleUndo, if_neg h]; rfl

lemma handleRedo_eq_loadStep (s : AppState)
    (h : ¬ ((s.historyStep : ℤ) = (s.history.length : ℤ) - 1)) :
    handleRedo s = loadStep s (s.historyStep + 1) := by
  rw [handleRedo, if_neg h]; rfl

lemma loadStep_loadStep (s : AppState) (a b : Nat) :
    loadStep (loadStep s a) b = loadStep s b := rfl

lemma loadStep_self (s : AppState)
    (h1 : s.items = (s.history.getD s.historyStep emptySnapshot).items)
    (h2 : s.drawings = (s.history.getD s.historyStep emptySnapshot).drawings) :
    loadStep s s.historyStep = s := by
  simp only [loadStep]
  rw [← h1, ← h2]

lemma undoN_eq_loadStep (k : Nat) : ∀ s : AppState, k ≤ s.historyStep →
    s.items = (s.history.getD s.historyStep emptySnapshot).items →
    s.drawings = (s.history.getD s.historyStep emptySnapshot).drawings →
    undoN k s = loadStep s (s.historyStep - k) := by
  induction k with
  | zero =>
    intro s _ h1 h2
    show s = loadStep s (s.historyStep - 0)
    rw [Nat.sub_zero, loadStep_self s h1 h2]
  | succ k ih =>
    intro s hk h1 h2
    have hne : s.historyStep ≠ 0 := by omega
    show undoN k (handleUndo s) = loadStep s (s.historyStep - (k + 1))
    rw [handleUndo_eq_loadStep s hne]
    have hk2 : k ≤ (loadStep s (s.historyStep - 1)).historyStep := by
      show k ≤ s.historyStep - 1
      omega
    rw [ih (loadStep s (s.historyStep - 1)) hk2 rfl rfl, loadStep_loadStep]
    congr 1
    show s.historyStep - 1 - k = s.historyStep - (k + 1)
    omega

lemma redoN_eq_loadStep (k : Nat) : ∀ s : AppState,
    s.historyStep + k + 1 ≤ s.history.length →
    s.items = (s.history.getD s.historyStep emptySnapshot).items →
    s.drawings = (s.history.getD s.historyStep emptySnapshot).drawings →
    redoN k s = loadStep s (s.historyStep + k) := by
  induction k with
  | zero =>
    intro s _ h1 h2
    show s = loadStep s (s.historyStep + 0)
    rw [Nat.add_zero, loadStep_self s h1 h2]
  | succ k ih =>
    intro s hk h1 h2
    have hne : ¬ ((s.historyStep : ℤ) = (s.history.length : ℤ) - 1) := by omega
    show redoN k (handleRedo s) = loadStep s (s.historyStep + (k + 1))
    rw [handleRedo_eq_loadStep s hne]
    have hk2 : (loadStep s (s.historyStep + 1)).historyStep + k + 1 ≤
        (loadStep s (s.historyStep + 1)).history.length := by
      show s.historyStep + 1 + k + 1 ≤ s.history.length
      omega
    rw [ih (loadStep s (s.historyStep + 1)) hk2 rfl rfl, loadStep_loadStep]
    congr 1
    show s.historyStep + 1 + k = s.historyStep + (k + 1)
    omega

lemma getD_concat : ∀ (l : List Snapshot) (a d : Snapshot),
    (l ++ [a]).getD l.length d = a
  | [], _, _ => rfl
  | _ :: t, a, d => getD_concat t a d

lemma commitState_basic (s : AppState) (c : Snapshot) :
    (commitState s c).history = s.history.take (s.historyStep + 1) ++ [c] ∧
    (commitState s c).historyStep + 1 = (commitState s c).history.length ∧
    handleRedo (commitState s c) = commitState s c := by
  have hlen : 1 ≤ (s.history.take (s.historyStep + 1) ++ [c]).length := by
    simp
  refine ⟨rfl, ?_, ?_⟩
  · show (s.history.take (s.historyStep + 1) ++ [c]).length - 1 + 1 =
      (s.history.take (s.historyStep + 1) ++ [c]).length
    omega
  · have hguard : ((commitState s c).historyStep : ℤ) =
        ((commitState s c).history.length : ℤ) - 1 := by
      show (((s.history.take (s.historyStep + 1) ++ [c]).length - 1 : Nat) : ℤ) =
        ((s.history.take (s.historyStep + 1) ++ [c]).length : ℤ) - 1
      omega
    rw [handleRedo, if_pos hguard]

lemma commitAll_spec (snaps : List Snapshot) : ∀ s : AppState,
    s.historyStep + 1 = s.history.length →
    s.items = (s.history.getD s.historyStep emptySnapshot).items →
    s.drawings = (s.history.getD s.historyStep emptySnapshot).drawings →
    (commitAll s snaps).history = s.history ++ snaps ∧
    (commitAll s snaps).historyStep + 1 = s.history.length + snaps.length ∧
    (commitAll s snaps).items =
      ((commitAll s snaps).history.getD (commitAll s snaps).historyStep emptySnapshot).items ∧
    (commitAll s snaps).drawings =
      ((commitAll s snaps).history.getD (commitAll s snaps).historyStep emptySnapshot).drawings := by
  induction snaps with
  | nil =>
    intro s hEnd h1 h2
    exact ⟨(List.append_nil _).symm, by simpa using hEnd, h1, h2⟩
  | cons c cs ih =>
    intro s hEnd h1 h2
    have hstep : commitAll s (c :: cs) = commitAll (commitState s c) cs := rfl
    have hH : (commitState s c).history = s.history ++ [c] := by
      show s.history.take (s.historyStep + 1) ++ [c] = s.history ++ [c]
      rw [hEnd, List.take_length]
    have hS : (commitState s c).historyStep = s.history.length := by
      show (s.history.take (s.historyStep + 1) ++ [c]).length - 1 = s.history.length
      rw [hEnd, List.take_length]
      simp
    have hEnd2 : (commitState s c).historyStep + 1 = (commitState s c).history.length := by
      rw [hS, hH]
      simp
    have hsync1 : (commitState s c).items =
        ((commitState s c).history.getD (commitState s c).historyStep emptySnapshot).items := by
      rw [hH, hS, getD_concat]
      rfl
    have hsync2 : (commitState s c).drawings =
        ((commitState s c).history.getD (commitState s c).historyStep emptySnapshot).drawings := by
      rw [hH, hS, getD_concat]
      rfl
    obtain ⟨r1, r2, r3, r4⟩ := ih (commitState s c) hEnd2 hsync1 hsync2
    rw [hstep]
    refine ⟨?_, ?_, r3, r4⟩
    · rw [r1, hH, List.append_assoc]
      rfl
    · rw [r2, hH]
      simp [Nat.add_assoc, Nat.add_comm 1 cs.length]

/-- C2: from the initial empty state, after any sequence of N commits,
N undos return the live board to the empty initial state at step 0; N
redos then restore the final state exactly, whose step is the last index;
and a commit performed after k undos truncates the log to the first
(N - k + 1) entries, appends the new snapshot, sets the step to the new
last index, and makes redo a no-op. -/
theorem history_linearity (w h : ℚ) (snaps : List Snapshot) :
    (undoN snaps.length (commitAll (initialState w h) snaps)).items = [] ∧
    (undoN snaps.length (commitAll (initialState w h) snaps)).drawings = [] ∧
    (undoN snaps.length (commitAll (initialState w h) snaps)).historyStep = 0 ∧
    redoN snaps.length (undoN snaps.length (commitAll (initialState w h) snaps)) =
      commitAll (initialState w h) snaps ∧
    (commitAll (initialState w h) snaps).historyStep + 1 =
      (commitAll (initialState w h) snaps).history.length ∧
    ∀ (k : Nat) (c : Snapshot), k ≤ snaps.length →
      (commitState (undoN k (commitAll (initialState w h) snaps)) c).history =
        (commitAll (initialState w h) snaps).history.take ((snaps.length - k) + 1) ++ [c] ∧
      (commitState (undoN k (commitAll (initialState w h) snaps)) c).historyStep + 1 =
        (commitState (undoN k (commitAll (initialState w h) snaps)) c).history.length ∧
      handleRedo (commitState (undoN k (commitAll (initialState w h) snaps)) c) =
        commitState (undoN k (commitAll (initialState w h) snaps)) c := by
  obtain ⟨hH, hS, hI, hD⟩ := commitAll_spec snaps (initialState w h) rfl rfl rfl
  have hinit : (initialState w h).history.length = 1 := rfl
  have hlen : (commitAll (initialState w h) snaps).history.length = snaps.length + 1 := by
    rw [hH, List.length_append, hinit, Nat.add_comm]
  have hstep : (commitAll (initialState w h) snaps).historyStep = snaps.length := by
    omega
  have hundo : undoN snaps.length (commitAll (initialState w h) snaps) =
      loadStep (commitAll (initialState w h) snaps) 0 := by
    have := undoN_eq_loadStep snaps.length (commitAll (initialState w h) snaps)
      (by omega) hI hD
    rw [this, hstep, Nat.sub_self]
  have hget0 : (commitAll (initialState w h) snaps).history.getD 0 emptySnapshot =
      emptySnapshot := by
    rw [hH]
    rfl
  refine ⟨?_, ?_, ?_, ?_, ?_, ?_⟩
  · rw [hundo]
    show ((commitAll (initialState w h) snaps).history.getD 0 emptySnapshot).items = []
    rw [hget0]
    rfl
  · rw [hundo]
    show ((commitAll (initialState w h) snaps).history.getD 0 emptySnapshot).drawings = []
    rw [hget0]
    rfl
  · rw [hundo]
    rfl
  · rw [hundo]
    have hredo := redoN_eq_loadStep snaps.length
      (loadStep (commitAll (initialState w h) snaps) 0)
      (by show 0 + snaps.length + 1 ≤ (commitAll (initialState w h) snaps).history.length
          omega)
      rfl rfl
    rw [hredo, loadStep_loadStep]
    show loadStep (commitAll (initialState w h) snaps) (0 + snaps.length) = _
    rw [Nat.zero_add, ← hstep]
    exact loadStep_self _ hI hD
  · rw [hlen]
    omega
  · intro k c hk
    have hu : undoN k (commitAll (initialState w h) snaps) =
        loadStep (commitAll (initialState w h) snaps) (snaps.length - k) := by
      have := undoN_eq_loadStep k (commitAll (initialState w h) snaps) (by omega) hI hD
      rw [this, hstep]
    obtain ⟨b1, b2, b3⟩ := commitState_basic (undoN k (commitAll (initialState w h) snaps)) c
    refine ⟨?_, b2, b3⟩
    rw [b1, hu]
    rfl

/-! ## Reachable history states -/

/-- The three operations that touch the history log. -/
inductive HistOp
  | commit (snap : Snapshot)
  | undo
  | redo

/-- Apply one history operation to the app state. -/
def applyHistOp (s : AppState) : HistOp → AppState
  | HistOp.commit snap => commitState s snap
  | HistOp.undo => handleUndo s
  | HistOp.redo => handleRedo s

/-- Run a sequence of history operations from a state. -/
def runHistOps (s : AppState) (ops : List HistOp) : AppState :=
  ops.foldl applyHistOp s

/-- The C8 invariant: the cursor is a valid index and entry 0 is the empty
initial snapshot. -/
def historyInv (s : AppState) : Prop :=
  s.historyStep < s.history.length ∧ s.history.head? = some emptySnapshot

lemma historyInv_step (s : AppState) (op : HistOp) (h : historyInv s) :
    historyInv (applyHistOp s op) := by
  obtain ⟨hlt, hhead⟩ := h
  cases op with
  | commit c =>
    constructor
    · show (s.history.take (s.historyStep + 1) ++ [c]).length - 1 <
        (s.history.take (s.historyStep + 1) ++ [c]).length
      have : 1 ≤ (s.history.take (s.historyStep + 1) ++ [c]).length := by simp
      omega
    · cases hh : s.history with
      | nil => rw [hh] at hhead; exact absurd hhead (by simp)
      | cons a t =>
        have ha : a = emptySnapshot := by
          rw [hh] at hhead
          simpa using hhead
        show (s.history.take (s.historyStep + 1) ++ [c]).head? = some emptySnapshot
        rw [hh, List.take_succ_cons, ha]
        rfl
  | undo =>
    show historyInv (handleUndo s)
    by_cases h0 : s.historyStep = 0
    · rw [handleUndo, if_pos h0]
      exact ⟨hlt, hhead⟩
    · rw [handleUndo_eq_loadStep s h0]
      refine ⟨?_, hhead⟩
      show s.historyStep - 1 < s.history.length
      omega
  | redo =>
    show historyInv (handleRedo s)
    by_cases hg : (s.historyStep : ℤ) = (s.history.length : ℤ) - 1
    · rw [handleRedo, if_pos hg]
      exact ⟨hlt, hhead⟩
    · rw [handleRedo_eq_loadStep s hg]
      refine ⟨?_, hhead⟩
      show s.historyStep + 1 < s.history.length
      omega

/-- C8: in every state reachable from the initial state by commits, undos
and redos, the cursor satisfies 0 ≤ step < entries.length and the entry at
index 0 is the empty initial board state (no items, no drawings). -/
theorem history_invariant (w h : ℚ) (ops : List HistOp) :
    (runHistOps (initialState w h) ops).historyStep <
      (runHistOps (initialState w h) ops).history.length ∧
    (runHistOps (initialState w h) ops).history.head? = some emptySnapshot ∧
    emptySnapshot.items = [] ∧ emptySnapshot.drawings = [] := by
  have main : ∀ (l : List HistOp) (s : AppState), historyInv s →
      historyInv (runHistOps s l) := by
    intro l
    induction l with
    | nil => intro s hs; exact hs
    | cons op t ih =>
      intro s hs
      exact ih (applyHistOp s op) (historyInv_step s op hs)
  have h0 : historyInv (initialState w h) := ⟨Nat.zero_lt_one, rfl⟩
  obtain ⟨a, b⟩ := main ops (initialState w h) h0
  exact ⟨a, b, rfl, rfl⟩

/-! ## Drawing sessions: arrow and freehand point lists -/

/-- The logical coordinates getVirtualPoint yields for an available
pointer position. -/
def logicalPoint (s : AppState) (p : ℚ × ℚ) : ℚ × ℚ :=
  ((p.1 - boardX s) / safeScale s, (p.2 - boardY s) / safeScale s)

/-- A sequence of pointer-move events, each with an available position. -/
def runMoves (s : AppState) (ms : List (ℚ × ℚ)) : AppState :=
  ms.foldl (fun t m => handleStageMouseMove t (some m)) s

lemma logicalPoint_congr (s t : AppState) (hw : s.containerWidth = t.containerWidth)
    (hh : s.containerHeight = t.containerHeight) : logicalPoint s = logicalPoint t := by
  funext p
  simp only [logicalPoint, boardX, boardY, safeScale, scale, hw, hh]

lemma mouseDown_draw (s : AppState) (bg : Bool) (pd : ℚ × ℚ) (newId : Nat)
    (h : s.toolMode ≠ ToolMode.SELECT) :
    handleStageMouseDown s bg (some pd) newId =
      { s with
        selectedId := if bg then none else s.selectedId,
        isDrawing := true,
        currentLineId := some newId,
        drawings := s.drawings ++
          [⟨newId, s.toolMode, [(logicalPoint s pd).1, (logicalPoint s pd).2],
            s.drawingColor, 4⟩] } := by
  cases bg with
  | false =>
    rw [handleStageMouseDown]
    simp only [Bool.false_eq_true, if_false]
    rw [if_neg h]
    rfl
  | true =>
    rw [handleStageMouseDown]
    simp only [if_true]
    rw [if_neg h]
    rfl

lemma mouseMove_active (s : AppState) (nid : Nat) (q : ℚ × ℚ)
    (hA : s.isDrawing = true) (hC : s.currentLineId = some nid) :
    handleStageMouseMove s (some q) =
      { s with drawings := s.drawings.map (updateLayer (some nid) (logicalPoint s q)) } := by
  rw [handleStageMouseMove, if_neg (by simp [hA, hC]), hC]
  rfl

lemma runMoves_drawings (nid : Nat) : ∀ (ms : List (ℚ × ℚ)) (s : AppState),
    s.isDrawing = true → s.currentLineId = some nid →
    (runMoves s ms).drawings =
      ms.foldl
        (fun acc q => acc.map (updateLayer (some nid) (logicalPoint s q))) s.drawings := by
  intro ms
  induction ms with
  | nil => intro s _ _; rfl
  | cons m t ih =>
    intro s hA hC
    show (runMoves (handleStageMouseMove s (some m)) t).drawings = _
    rw [mouseMove_active s nid m hA hC]
    rw [ih { s with drawings := s.drawings.map (updateLayer (some nid) (logicalPoint s m)) }
      hA hC]
    have hlp : logicalPoint
        { s with drawings := s.drawings.map (updateLayer (some nid) (logicalPoint s m)) } =
        logicalPoint s := logicalPoint_congr _ _ rfl rfl
    rw [hlp]
    rfl

lemma foldl_map_updateLayer (nid : Nat) (g : ℚ × ℚ → ℚ × ℚ) :
    ∀ (ms : List (ℚ × ℚ)) (L : List Drawing),
    ms.foldl (fun acc r => acc.map (updateLayer (some nid) (g r))) L =
      L.map (fun d => ms.foldl (fun dd r => updateLayer (some nid) (g r) dd) d) := by
  intro ms
  induction ms with
  | nil => intro L; simp
  | cons m t ih =>
    intro L
    show t.foldl _ (L.map (updateLayer (some nid) (g m))) = _
    rw [ih, List.map_map]
    rfl

lemma updateLayer_id (cur : Option Nat) (q : ℚ × ℚ) (d : Drawing) :
    (updateLayer cur q d).id = d.id := by
  rw [updateLayer]
  split
  · split <;> rfl
  · rfl

lemma updateLayer_other (nid : Nat) (q : ℚ × ℚ) (d : Drawing) (h : d.id ≠ nid) :
    updateLayer (some nid) q d = d := by
  rw [updateLayer, if_neg (fun hcon => h (Option.some.inj hcon).symm)]

lemma foldl_updateLayer_other (nid : Nat) (g : (ℚ × ℚ) → ℚ × ℚ) :
    ∀ (ms : List (ℚ × ℚ)) (d : Drawing), d.id ≠ nid →
    ms.foldl (fun dd m => updateLayer (some nid) (g m) dd) d = d := by
  intro ms
  induction ms with
  | nil => intro d _; rfl
  | cons m t ih =>
    intro d h
    show t.foldl _ (updateLayer (some nid) (g m) d) = d
    rw [updateLayer_other nid (g m) d h]
    exact ih d h

lemma foldl_updateLayer_arrow (nid : Nat) (g : (ℚ × ℚ) → ℚ × ℚ) :
    ∀ (ms : List (ℚ × ℚ)) (q : ℚ × ℚ) (d : Drawing) (a b : ℚ) (rest : List ℚ),
    d.id = nid → d.tool = ToolMode.ARROW → d.points = a :: b :: rest →
    ((ms ++ [q]).foldl (fun dd m => updateLayer (some nid) (g m) dd) d).points =
      [a, b, (g q).1, (g q).2] ∧
    ((ms ++ [q]).foldl (fun dd m => updateLayer (some nid) (g m) dd) d).id = nid := by
  intro ms
  induction ms with
  | nil =>
    intro q d a b rest hid htool hp
    show (updateLayer (some nid) (g q) d).points = _ ∧ (updateLayer (some nid) (g q) d).id = _
    rw [updateLayer, if_pos (by rw [hid]), if_pos htool, hp]
    exact ⟨rfl, hid⟩
  | cons m t ih =>
    intro q d a b rest hid htool hp
    show ((t ++ [q]).foldl (fun dd r => updateLayer (some nid) (g r) dd)
        (updateLayer (some nid) (g m) d)).points = [a, b, (g q).1, (g q).2] ∧
      ((t ++ [q]).foldl (fun dd r => updateLayer (some nid) (g r) dd)
        (updateLayer (some nid) (g m) d)).id = nid
    have hstep : updateLayer (some nid) (g m) d =
        { d with points := [a, b, (g m).1, (g m).2] } := by
      rw [updateLayer, if_pos (by rw [hid]), if_pos htool, hp]
      rfl
    rw [hstep]
    exact ih q { d with points := [a, b, (g m).1, (g m).2] } a b [(g m).1, (g m).2]
      hid htool rfl

lemma updateLayer_points_ne (cur : Option Nat) (q : ℚ × ℚ) (d : Drawing)
    (h : d.points ≠ []) : (updateLayer cur q d).points ≠ [] := by
  rw [updateLayer]
  split
  · split
    · simp
    · simp
  · exact h

/-- C3: (1) in an Arrow session started at pointer-down point pd, after any
nonempty sequence of moves the current stroke's point list is exactly the
four entries [down.x, down.y, last.x, last.y] - entries 0 and 1 stay the
pointer-down point and entries 2 and 3 are the most recent move, no matter
how many moves fired; (2) a non-Arrow (Freehand) stroke's point list only
grows: the old list is a prefix of the updated one for every move; (3) every
stroke's point list is non-empty from creation on: all three stage handlers
preserve non-emptiness of every stroke (pointer-down creates only
two-coordinate strokes). -/
theorem stroke_point_invariants :
    (∀ (s : AppState) (bg : Bool) (pd : ℚ × ℚ) (newId : Nat)
        (ms : List (ℚ × ℚ)) (q : ℚ × ℚ),
      s.toolMode = ToolMode.ARROW →
      (∀ d ∈ s.drawings, d.id ≠ newId) →
      ((runMoves (handleStageMouseDown s bg (some pd) newId) (ms ++ [q])).drawings.filter
          (fun d => d.id == newId)).map Drawing.points =
        [[(logicalPoint s pd).1, (logicalPoint s pd).2,
          (logicalPoint s q).1, (logicalPoint s q).2]]) ∧
    (∀ (cur : Option Nat) (q : ℚ × ℚ) (layer : Drawing),
      layer.tool ≠ ToolMode.ARROW →
      layer.points <+: (updateLayer cur q layer).points) ∧
    (∀ (s : AppState) (bg : Bool) (pt : Option (ℚ × ℚ)) (nid : Nat),
      (∀ d ∈ s.drawings, d.points ≠ []) →
      (∀ d ∈ (handleStageMouseDown s bg pt nid).drawings, d.points ≠ []) ∧
      (∀ d ∈ (handleStageMouseMove s pt).drawings, d.points ≠ []) ∧
      (∀ d ∈ (handleStageMouseUp s).drawings, d.points ≠ [])) := by
  refine ⟨?_, ?_, ?_⟩
  · intro s bg pd newId ms q hTool hIds
    have hTool' : s.toolMode ≠ ToolMode.SELECT := by rw [hTool]; intro hcon; cases hcon
    rw [mouseDown_draw s bg pd newId hTool']
    rw [runMoves_drawings newId (ms ++ [q]) _ rfl rfl]
    have hlp : logicalPoint
        { s with
          selectedId := if bg then none else s.selectedId,
          isDrawing := true,
          currentLineId := some newId,
          drawings := s.drawings ++
            [⟨newId, s.toolMode, [(logicalPoint s pd).1, (logicalPoint s pd).2],
              s.drawingColor, 4⟩] } = logicalPoint s := logicalPoint_congr _ _ rfl rfl
    have hSd : ({ s with
        selectedId := if bg then none else s.selectedId,
        isDrawing := true,
        currentLineId := some newId,
        drawings := s.drawings ++
          [⟨newId, s.toolMode, [(logicalPoint s pd).1, (logicalPoint s pd).2],
            s.drawingColor, 4⟩] } : AppState).drawings = s.drawings ++
          [⟨newId, s.toolMode, [(logicalPoint s pd).1, (logicalPoint s pd).2],
            s.drawingColor, 4⟩] := rfl
    rw [hlp, hSd]
    rw [foldl_map_updateLayer newId (logicalPoint s) (ms ++ [q])]
    rw [List.map_append, List.filter_append]
    have hskip : ((s.drawings.map (fun d => (ms ++ [q]).foldl
        (fun dd r => updateLayer (some newId) (logicalPoint s r) dd) d)).filter
        (fun d => d.id == newId)) = [] := by
      rw [List.filter_eq_nil_iff]
      intro d hd
      obtain ⟨d0, hd0, hfd⟩ := List.mem_map.mp hd
      rw [← hfd, foldl_updateLayer_other newId (logicalPoint s) (ms ++ [q]) d0
        (hIds d0 hd0)]
      simpa using hIds d0 hd0
    obtain ⟨hpts, hid⟩ := foldl_updateLayer_arrow newId (logicalPoint s) ms q
      ⟨newId, s.toolMode, [(logicalPoint s pd).1, (logicalPoint s pd).2], s.drawingColor, 4⟩
      (logicalPoint s pd).1 (logicalPoint s pd).2 [] rfl (by rw [hTool]) rfl
    rw [hskip, List.nil_append]
    simp [hid, hpts, -List.foldl_append]
  · intro cur q layer h
    by_cases hc : cur = some layer.id
    · rw [updateLayer, if_pos hc, if_neg h]
      exact List.prefix_append _ _
    · rw [updateLayer, if_neg hc]
  · intro s bg pt nid hne
    refine ⟨?_, ?_, ?_⟩
    · have shape : (handleStageMouseDown s bg pt nid).drawings = s.drawings ∨
          ∃ d : Drawing, d.points ≠ [] ∧
            (handleStageMouseDown s bg pt nid).drawings = s.drawings ++ [d] := by
        cases bg <;> cases pt <;>
          by_cases htm : s.toolMode = ToolMode.SELECT <;>
            simp [handleStageMouseDown, getVirtualPoint, htm]
      intro d hd
      rcases shape with hsame | ⟨d0, hd0ne, happ⟩
      · exact hne d (hsame ▸ hd)
      · rw [happ] at hd
        rcases List.mem_append.mp hd with hmem | hmem
        · exact hne d hmem
        · rw [List.mem_singleton.mp hmem]
          exact hd0ne
    · intro d hd
      rw [handleStageMouseMove] at hd
      split at hd
      · exact hne d hd
      · cases pt with
        | none => exact hne d hd
        | some p =>
          obtain ⟨d0, hd0, hfd⟩ := List.mem_map.mp hd
          rw [← hfd]
          exact updateLayer_points_ne _ _ d0 (hne d0 hd0)
    · have hsame : (handleStageMouseUp s).drawings = s.drawings := by
        rw [handleStageMouseUp]
        split <;> rfl
      intro d hd
      exact hne d (hsame ▸ hd)

end TacticalBoard
